import Mathlib

/-!
Shallow embedding of `src/base/VersionManager.py` (LinguaGacha self-update
orchestrator): version comparison, the update-check task, the download task
and the extract/install task, together with theorems checking the
specification's claims about them.

Environment interactions (HTTP responses, the byte stream delivered by the
transfer library, filesystem contents, the platform probe) are passed in as
explicit parameters; everything the Python module itself computes is
translated directly from the source.
-/

namespace LinguaGacha

/-- The `VersionManager.Status` StrEnum of the source.  The spec uses the
names IDLE / UPDATE_AVAILABLE / DOWNLOADING / DOWNLOADED for
NONE / NEW_VERSION / UPDATING / DOWNLOADED respectively. -/
inductive Status where
  | NONE
  | NEW_VERSION
  | UPDATING
  | DOWNLOADED
deriving DecidableEq, Repr

/-- `__init__` sets `self.status = Status.NONE`. -/
def initial_status : Status := Status.NONE

/-- `get_platform_info`: `("macos", machine)` when `sys.platform == "darwin"`,
otherwise `("windows", "x86_64")`.  The environment probe (`sys.platform`,
`platform.machine()`) is passed in as `darwin` / `machine`. -/
def get_platform_info (darwin : Bool) (machine : String) : String × String :=
  if darwin then ("macos", machine) else ("windows", "x86_64")

/-- Trailing digit run of a reversed character list: `takeDigitsRev rev`
returns the longest run of digit characters at the head of `rev` (that is,
at the tail of the original string) together with the remainder. -/
def takeDigitsRev : List Char → List Char × List Char
  | [] => ([], [])
  | c :: rest =>
    if c.isDigit then
      let p := takeDigitsRev rest
      (c :: p.1, p.2)
    else ([], c :: rest)

/-- Numeric value of a digit run given in reversed order (least significant
digit first), as `int()` applied to the matched group. -/
def natOfDigitsRev : List Char → Nat
  | [] => 0
  | c :: rest => natOfDigitsRev rest * 10 + (c.toNat - 48)

/-- `re.findall(r"v(\d+)\.(\d+)\.(\d+)$", s)[-1]` as used by
`app_update_check_start_task`, returning the three integer components or
`none` when the pattern does not match (in which case indexing `[-1]` raises
and the surrounding `except` swallows the check).

Because the pattern is anchored with `$`, a match must end at the end of the
string (or just before a single trailing newline, which Python's `$` also
accepts); hence there is at most one match and it is forced: the PATCH group
is the maximal trailing digit run (any shorter suffix of that run would be
preceded by a digit, not by `.`), likewise MINOR, and MAJOR is the maximal
digit run before the second dot, which must be preceded by the literal `v`
(any shorter run would be preceded by a digit). -/
def parse_version (s : String) : Option (Nat × Nat × Nat) :=
  let rev0 := s.data.reverse
  let rev := match rev0 with
    | '\n' :: r => r
    | r => r
  let pc := takeDigitsRev rev
  match pc.1, pc.2 with
  | [], _ => none
  | _, '.' :: r2 =>
    let pb := takeDigitsRev r2
    match pb.1, pb.2 with
    | [], _ => none
    | _, '.' :: r4 =>
      let pa := takeDigitsRev r4
      match pa.1, pa.2 with
      | [], _ => none
      | _, 'v' :: _ => some (natOfDigitsRev pa.1, natOfDigitsRev pb.1, natOfDigitsRev pc.1)
      | _, _ => none
    | _, _ => none
  | _, _ => none

/-- The comparison in `app_update_check_start_task`:
`int(a) < int(x) or (int(a) == int(x) and int(b) < int(y)) or
 (int(a) == int(x) and int(b) == int(y) and int(c) < int(z))`.
The groups are matched by `\d+`, so all components are natural numbers. -/
def is_newer (l r : Nat × Nat × Nat) : Bool :=
  (decide (l.1 < r.1)) ||
  ((decide (l.1 = r.1)) && (decide (l.2.1 < r.2.1))) ||
  ((decide (l.1 = r.1)) && (decide (l.2.1 = r.2.1)) && (decide (l.2.2 < r.2.2)))

/-- Strict lexicographic order on integer triples, written from the spec's
words: "the integer triple (x,y,z) is lexicographically greater than (a,b,c),
comparing numerically (major first, then minor, then patch)". -/
def TripleLt (l r : Nat × Nat × Nat) : Prop :=
  l.1 < r.1 ∨ (l.1 = r.1 ∧ (l.2.1 < r.2.1 ∨ (l.2.1 = r.2.1 ∧ l.2.2 < r.2.2)))

/-- Events published by the check task: the new-version toast (carrying the
matched remote triple) and the `APP_UPDATE_CHECK_DONE {new_version: True}`
event. -/
inductive CheckEvent where
  | toastNewVersion (x y z : Nat)
  | check_done_new_version
deriving DecidableEq, Repr

/-- Observable effects of one run of the check task: the events it emits and
the sequence of `set_status` writes it performs, in order. -/
structure CheckResult where
  events : List CheckEvent
  statusWrites : List Status
deriving DecidableEq, Repr

/-- Environment of one check: either the `httpx.get`/`raise_for_status`/JSON
step raises, or it yields a JSON document whose `tag_name` field is
`tag_name` (`none` when the field is absent, in which case the code uses the
default `"v0.0.0"`). -/
inductive CheckEnv where
  | httpFail (message : String)
  | ok (tag_name : Option String)
deriving DecidableEq, Repr

/-- `app_update_check_start_task`: fetch the release JSON, parse the local
and remote version strings with the anchored regex, and when the remote
triple is newer set status NEW_VERSION and emit the toast plus the
check-done event.  Every exception (network, HTTP status, JSON, regex
mismatch via `[-1]` on an empty list) is swallowed by the bare `except`:
no events, no status write. -/
def app_update_check_start_task (version : String) (env : CheckEnv) : CheckResult :=
  match env with
  | .httpFail _ => { events := [], statusWrites := [] }
  | .ok tag_name =>
    match parse_version version, parse_version (tag_name.getD "v0.0.0") with
    | some l, some r =>
      if is_newer l r then
        { events := [CheckEvent.toastNewVersion r.1 r.2.1 r.2.2,
                     CheckEvent.check_done_new_version],
          statusWrites := [Status.NEW_VERSION] }
      else { events := [], statusWrites := [] }
    | _, _ => { events := [], statusWrites := [] }

/-- Modelled from the spec: the Localizer success message shown by the
download-done toast ("human-readable"; its exact text lives in the Localizer
module, which is outside the sources given here). -/
def app_new_version_success : String := "app_new_version_success"

/-- Modelled from the spec: the Localizer failure message that prefixes
`str(e)` in the download-error toast; its exact text lives in the Localizer
module, which is outside the sources given here. -/
def app_new_version_failure : String := "app_new_version_failure "

/-- Events published by the download task: progress updates
(`APP_UPDATE_DOWNLOAD_UPDATE {total_size, downloaded_size}`), toasts
(success or error with a message), and the two terminal events
`APP_UPDATE_DOWNLOAD_DONE` / `APP_UPDATE_DOWNLOAD_ERROR`. -/
inductive DlEvent where
  | progress (total_size downloaded_size : Nat)
  | toast (isError : Bool) (message : String)
  | download_done
  | download_error
deriving DecidableEq, Repr

/-- Observable effects of one run of the download task: the events it emits,
the `set_status` writes it performs, and the sizes of the chunks it writes
to the staging file, each in order. -/
structure DlResult where
  events : List DlEvent
  statusWrites : List Status
  written : List Nat
deriving DecidableEq, Repr

/-- A release asset as read from the JSON: `name` and
`browser_download_url` (the code defaults each to `""` when absent). -/
structure Asset where
  name : String
  browser_download_url : String
deriving DecidableEq, Repr

/-- Environment of the streaming GET: either `httpx.stream` /
`raise_for_status` raises, or the response declares `Content-Length`
`total_size` (`0` when the header is missing, via `headers.get(_, 0)`) and
`iter_bytes` delivers `chunks` (the sizes of the successfully delivered
chunks); `midError` is `some message` when the iteration or a write raises
after those chunks. -/
inductive StreamEnv where
  | openFail (message : String)
  | body (total_size : Nat) (chunks : List Nat) (midError : Option String)
deriving DecidableEq, Repr

/-- Environment of one download: either the metadata GET /
`raise_for_status` / JSON step raises, or it yields the asset list and the
subsequent stream behaves as `stream`. -/
inductive DownloadEnv where
  | httpFail (message : String)
  | ok (assets : List Asset) (stream : StreamEnv)
deriving DecidableEq, Repr

/-- Whether the first character list begins with the second one. -/
def begins_with : List Char → List Char → Bool
  | _, [] => true
  | [], _ :: _ => false
  | c :: cs, p2 :: ps2 => c == p2 && begins_with cs ps2

/-- Python `s.endswith(sfx)`: the reversed characters of `s` begin with the
reversed characters of `sfx`. -/
def ends_with (s sfx : String) : Bool :=
  begins_with s.data.reverse sfx.data.reverse

/-- The per-platform asset-name test of the selection loop:
`name.endswith(f"_macOS_{arch}.dmg")` on macOS, `name.endswith(".zip")`
otherwise. -/
def asset_matches (plat arch : String) (name : String) : Bool :=
  if plat = "macos" then ends_with name ("_macOS_" ++ arch ++ ".dmg")
  else ends_with name ".zip"

/-- The selection loop: scan the asset list in order, and on the first asset
whose name matches take its `browser_download_url` and break; `""` when no
asset matches (the loop leaves the initial value in place). -/
def select_browser_download_url (plat arch : String) : List Asset → String
  | [] => ""
  | asset :: rest =>
    if asset_matches plat arch asset.name then asset.browser_download_url
    else select_browser_download_url plat arch rest

/-- The `except` block of the download task: set status NONE, emit the error
toast `app_new_version_failure + str(e)`, emit `APP_UPDATE_DOWNLOAD_ERROR`.
The status writes include the unconditional `set_status(UPDATING)` performed
at the top of the `try` block before the exception. -/
def download_error_result (message : String) : DlResult :=
  { events := [DlEvent.toast true (app_new_version_failure ++ message),
               DlEvent.download_error],
    statusWrites := [Status.UPDATING, Status.NONE],
    written := [] }

/-- The `for chunk in response.iter_bytes(...)` loop, starting from
accumulated size `downloaded_size`: write the chunk, add its length, then
either emit a progress event (while `total_size > downloaded_size`) or set
status DOWNLOADED and emit the success toast plus
`APP_UPDATE_DOWNLOAD_DONE`.  Returns (events, status writes, chunks
written). -/
def iter_bytes_loop (total_size : Nat) (downloaded_size : Nat) :
    List Nat → List DlEvent × List Status × List Nat
  | [] => ([], [], [])
  | chunk :: rest =>
    let d := downloaded_size + chunk
    let r := iter_bytes_loop total_size d rest
    if total_size > d then
      (DlEvent.progress total_size d :: r.1, r.2.1, chunk :: r.2.2)
    else
      (DlEvent.toast false app_new_version_success :: DlEvent.download_done :: r.1,
       Status.DOWNLOADED :: r.2.1, chunk :: r.2.2)

/-- The `with httpx.stream(...)` block of the download task (reached only
after an asset URL was found): raise on a failed open or a zero declared
`Content-Length`, otherwise stream the chunks with `iter_bytes_loop`; a
`midError` exception lands in the `except` block after the delivered chunks
were already written and reported. -/
def handle_stream (stream : StreamEnv) : DlResult :=
  match stream with
  | .openFail message => download_error_result message
  | .body total_size chunks midError =>
    if total_size = 0 then
      download_error_result "Content-Length is 0 ..."
    else
      let r := iter_bytes_loop total_size 0 chunks
      match midError with
      | some message =>
        { events := r.1 ++ [DlEvent.toast true (app_new_version_failure ++ message),
                            DlEvent.download_error],
          statusWrites := Status.UPDATING :: r.2.1 ++ [Status.NONE],
          written := r.2.2 }
      | none =>
        { events := r.1,
          statusWrites := Status.UPDATING :: r.2.1,
          written := r.2.2 }

/-- `app_update_download_start_task`: set status UPDATING, fetch the release
JSON, select the asset for the current platform, raise when none was found
(empty URL), then run the streaming block (`handle_stream`); any exception
anywhere lands in the `except` block (`download_error_result`). -/
def app_update_download_start_task (darwin : Bool) (machine : String)
    (env : DownloadEnv) : DlResult :=
  let pa := get_platform_info darwin machine
  match env with
  | .httpFail message => download_error_result message
  | .ok assets stream =>
    let url := select_browser_download_url pa.1 pa.2 assets
    if url = "" then
      download_error_result ("No suitable asset found for " ++ pa.1 ++ "/" ++ pa.2)
    else
      handle_stream stream

/-- The filesystem locations the extract task manipulates, each holding
`some` contents or absent.  `update_temp` is `TEMP_PATH`
(`./resource/update.temp`), the staged archive. -/
structure FS where
  app_exe : Option String
  version_txt : Option String
  app_exe_bak : Option String
  version_txt_bak : Option String
  update_temp : Option String
deriving DecidableEq, Repr

/-- `os.rename(src, dst)` wrapped in `try/except: pass` on Windows: a no-op
when the source is absent or the destination exists (both raise), otherwise
the contents move.  Returns the new (source, destination) pair. -/
def os_rename (src dst : Option String) : Option String × Option String :=
  match src, dst with
  | some v, none => (none, some v)
  | s, d => (s, d)

/-- Outcome of the critical extraction step (`ZipFile.extractall` +
`shutil.copytree` + `rmtree`): it either completes or raises, and in both
cases it has applied some effect `eff` to the filesystem (the files fully or
partially extracted before the exception). -/
inductive ExtractOutcome where
  | success (eff : FS → FS)
  | failure (eff : FS → FS)

/-- Observable effects of one run of the extract task: the final filesystem,
the sequence of writes to `self.extracting` (each under the lock), and
whether the task ended in `os.kill(os.getpid(), SIGTERM)`. -/
structure ExtractResult where
  fs : FS
  flagWrites : List Bool
  killed : Bool

/-- `app_update_extract_task`.  On macOS: toast, sleep, open the release
page, set `extracting = False`, return (the filesystem is untouched).  On
Windows: set `extracting = True`; best-effort delete the stale `.bak`
files; best-effort rename `./app.exe` and `./version.txt` to their `.bak`
siblings; run the critical extraction step; on failure best-effort delete
the two canonical files and best-effort rename the `.bak` siblings back;
best-effort delete `TEMP_PATH` regardless; toast, sleep, open the release
page and kill the process (so `extracting` is never written again). -/
def app_update_extract_task (darwin : Bool) (machine : String) (fs0 : FS)
    (outcome : ExtractOutcome) : ExtractResult :=
  let pa := get_platform_info darwin machine
  if pa.1 = "macos" then
    { fs := fs0, flagWrites := [false], killed := false }
  else
    let fs1 : FS := { fs0 with app_exe_bak := none, version_txt_bak := none }
    let p1 := os_rename fs1.app_exe fs1.app_exe_bak
    let fs2 : FS := { fs1 with app_exe := p1.1, app_exe_bak := p1.2 }
    let p2 := os_rename fs2.version_txt fs2.version_txt_bak
    let fs3 : FS := { fs2 with version_txt := p2.1, version_txt_bak := p2.2 }
    match outcome with
    | .success eff =>
      let fs4 := eff fs3
      { fs := { fs4 with update_temp := none }, flagWrites := [true], killed := true }
    | .failure eff =>
      let fs4 := eff fs3
      let fs5 : FS := { fs4 with app_exe := none, version_txt := none }
      let p3 := os_rename fs5.app_exe_bak fs5.app_exe
      let fs6 : FS := { fs5 with app_exe_bak := p3.1, app_exe := p3.2 }
      let p4 := os_rename fs6.version_txt_bak fs6.version_txt
      let fs7 : FS := { fs6 with version_txt_bak := p4.1, version_txt := p4.2 }
      { fs := { fs7 with update_temp := none }, flagWrites := [true], killed := true }

/-- `app_update_extract`: under the lock, the handler spawns the extract
task only when `self.extracting == False`; while the flag is true the
command is a silent no-op. -/
def app_update_extract_spawns (extracting : Bool) : Bool := extracting == false

/-- The adjacent state transitions produced by applying a sequence of
`set_status` writes starting from state `s`: each element is
(state before the write, state after the write). -/
def status_steps (s : Status) : List Status → List (Status × Status)
  | [] => []
  | w :: rest => (s, w) :: status_steps w rest

/-- Well-formedness of a stream environment, reflecting the guarantees of
`Content-Length`-framed HTTP transfer: when the iteration raises midway the
delivered chunks fall short of the declared size; when it completes without
error either the declared size was zero (the code raises before reading) or
the chunks sum to exactly the declared size and every proper leading part of
them falls short of it (the transfer layer never delivers bytes past the
declared length). -/
def goodStream : StreamEnv → Prop
  | .openFail _ => True
  | .body total_size chunks midError =>
    match midError with
    | some _ => total_size = 0 ∨ chunks.sum < total_size
    | none => total_size = 0 ∨
        (0 < total_size ∧ chunks.sum = total_size ∧
          ∀ i, i < chunks.length → (chunks.take i).sum < total_size)

/-- Well-formedness of a download environment: only the stream part is
constrained. -/
def goodEnv : DownloadEnv → Prop
  | .httpFail _ => True
  | .ok _ stream => goodStream stream

/-- Terminal download events: `APP_UPDATE_DOWNLOAD_DONE` and
`APP_UPDATE_DOWNLOAD_ERROR`. -/
def is_terminal : DlEvent → Bool
  | .download_done => true
  | .download_error => true
  | _ => false

/-- Progress download events (`APP_UPDATE_DOWNLOAD_UPDATE`). -/
def is_progress_event : DlEvent → Bool
  | .progress _ _ => true
  | _ => false

/-- The `downloaded_size` values carried by the progress events of a list,
in emission order. -/
def progress_values (evs : List DlEvent) : List Nat :=
  evs.filterMap fun e =>
    match e with
    | .progress _ d => some d
    | _ => none

theorem iter_bytes_loop_cons (total d c : Nat) (rest : List Nat) :
    iter_bytes_loop total d (c :: rest)
      = if total > d + c then
          (DlEvent.progress total (d + c) :: (iter_bytes_loop total (d + c) rest).1,
           (iter_bytes_loop total (d + c) rest).2.1,
           c :: (iter_bytes_loop total (d + c) rest).2.2)
        else
          (DlEvent.toast false app_new_version_success :: DlEvent.download_done ::
             (iter_bytes_loop total (d + c) rest).1,
           Status.DOWNLOADED :: (iter_bytes_loop total (d + c) rest).2.1,
           c :: (iter_bytes_loop total (d + c) rest).2.2) := by
  simp only [iter_bytes_loop]

theorem iter_bytes_loop_written (total d : Nat) (chunks : List Nat) :
    (iter_bytes_loop total d chunks).2.2 = chunks := by
  induction chunks generalizing d with
  | nil => rfl
  | cons c rest ih =>
    simp only [iter_bytes_loop]
    split <;> simp [ih]

theorem iter_bytes_loop_under (total d : Nat) (chunks : List Nat)
    (h : d + chunks.sum < total) :
    (∀ e ∈ (iter_bytes_loop total d chunks).1, is_progress_event e = true) ∧
    (iter_bytes_loop total d chunks).2.1 = [] := by
  induction chunks generalizing d with
  | nil =>
    refine ⟨?_, rfl⟩
    intro e he
    simp [iter_bytes_loop] at he
  | cons c rest ih =>
    simp only [List.sum_cons] at h
    have h1 : total > d + c := by omega
    have h2 : d + c + rest.sum < total := by omega
    obtain ⟨ihe, ihs⟩ := ih (d + c) h2
    simp only [iter_bytes_loop, if_pos h1]
    refine ⟨?_, ihs⟩
    intro e he
    rcases List.mem_cons.mp he with he | he
    · subst he; rfl
    · exact ihe e he

theorem iter_bytes_loop_exact (total d : Nat) (chunks : List Nat)
    (hne : chunks ≠ [])
    (hsum : d + chunks.sum = total)
    (hpre : ∀ i, i < chunks.length → d + (chunks.take i).sum < total) :
    ∃ ps, (iter_bytes_loop total d chunks).1
        = ps ++ [DlEvent.toast false app_new_version_success, DlEvent.download_done] ∧
      (∀ e ∈ ps, is_progress_event e = true) ∧
      (iter_bytes_loop total d chunks).2.1 = [Status.DOWNLOADED] := by
  induction chunks generalizing d with
  | nil => exact absurd rfl hne
  | cons c rest ih =>
    cases rest with
    | nil =>
      simp only [List.sum_cons, List.sum_nil] at hsum
      have hnot : ¬ total > d + c := by omega
      refine ⟨[], ?_, ?_, ?_⟩
      · simp [iter_bytes_loop, if_neg hnot]
      · intro e he; simp at he
      · simp [iter_bytes_loop, if_neg hnot]
    | cons c2 rest2 =>
      have h1 : total > d + c := by
        have := hpre 1 (by simp)
        simpa using this
      have hsum2 : d + c + (c2 :: rest2).sum = total := by
        simp only [List.sum_cons] at hsum ⊢
        omega
      have hpre2 : ∀ i, i < (c2 :: rest2).length → d + c + ((c2 :: rest2).take i).sum < total := by
        intro i hi
        have := hpre (i + 1) (by simpa using Nat.succ_lt_succ hi)
        simpa [List.take_succ_cons, Nat.add_assoc] using this
      obtain ⟨ps, he, hp, hs⟩ := ih (d + c) (by simp) hsum2 hpre2
      refine ⟨DlEvent.progress total (d + c) :: ps, ?_, ?_, ?_⟩
      · rw [iter_bytes_loop_cons, if_pos h1]
        simp [he]
      · intro e hme
        rcases List.mem_cons.mp hme with hme | hme
        · subst hme; rfl
        · exact hp e hme
      · rw [iter_bytes_loop_cons, if_pos h1]
        exact hs

theorem iter_bytes_loop_no_error (total d : Nat) (chunks : List Nat) :
    DlEvent.download_error ∉ (iter_bytes_loop total d chunks).1 ∧
    ∀ m, DlEvent.toast true m ∉ (iter_bytes_loop total d chunks).1 := by
  induction chunks generalizing d with
  | nil => simp [iter_bytes_loop]
  | cons c rest ih =>
    obtain ⟨ih1, ih2⟩ := ih (d + c)
    simp only [iter_bytes_loop]
    split
    · constructor
      · intro hmem
        rcases List.mem_cons.mp hmem with hmem | hmem
        · cases hmem
        · exact ih1 hmem
      · intro m hmem
        rcases List.mem_cons.mp hmem with hmem | hmem
        · cases hmem
        · exact ih2 m hmem
    · constructor
      · intro hmem
        rcases List.mem_cons.mp hmem with hmem | hmem
        · cases hmem
        · rcases List.mem_cons.mp hmem with hmem | hmem
          · cases hmem
          · exact ih1 hmem
      · intro m hmem
        rcases List.mem_cons.mp hmem with hmem | hmem
        · cases hmem
        · rcases List.mem_cons.mp hmem with hmem | hmem
          · cases hmem
          · exact ih2 m hmem

theorem iter_bytes_loop_status_all (total d : Nat) (chunks : List Nat) :
    ∀ s ∈ (iter_bytes_loop total d chunks).2.1, s = Status.DOWNLOADED := by
  induction chunks generalizing d with
  | nil => intro s hs; simp [iter_bytes_loop] at hs
  | cons c rest ih =>
    intro s hs
    simp only [iter_bytes_loop] at hs
    split at hs
    · exact ih (d + c) s hs
    · rcases List.mem_cons.mp hs with hs | hs
      · exact hs
      · exact ih (d + c) s hs

theorem iter_bytes_loop_progress_mem (total d : Nat) (chunks : List Nat)
    (ts dd : Nat)
    (h : DlEvent.progress ts dd ∈ (iter_bytes_loop total d chunks).1) :
    ts = total ∧ dd < total := by
  induction chunks generalizing d with
  | nil => simp [iter_bytes_loop] at h
  | cons c rest ih =>
    simp only [iter_bytes_loop] at h
    split at h
    · rcases List.mem_cons.mp h with heq | hm
      · injection heq with h1 h2
        subst h1; subst h2
        exact ⟨rfl, by omega⟩
      · exact ih (d + c) hm
    · rcases List.mem_cons.mp h with heq | hm
      · cases heq
      · rcases List.mem_cons.mp hm with heq | hm2
        · cases heq
        · exact ih (d + c) hm2

theorem chain_le_of_le {d d2 : Nat} {l : List Nat} (h : d ≤ d2)
    (hc : List.Chain (fun a b => a ≤ b) d2 l) :
    List.Chain (fun a b => a ≤ b) d l := by
  cases l with
  | nil => exact List.Chain.nil
  | cons x t =>
    cases hc with
    | cons hx ht => exact List.Chain.cons (le_trans h hx) ht

theorem iter_bytes_loop_chain (total d : Nat) (chunks : List Nat) :
    List.Chain (fun a b => a ≤ b) d
      (progress_values (iter_bytes_loop total d chunks).1) := by
  induction chunks generalizing d with
  | nil => simp [iter_bytes_loop, progress_values]
  | cons c rest ih =>
    simp only [iter_bytes_loop]
    split
    · simp only [progress_values, List.filterMap_cons]
      exact List.Chain.cons (Nat.le_add_right d c) (ih (d + c))
    · simp only [progress_values, List.filterMap_cons]
      exact chain_le_of_le (Nat.le_add_right d c) (ih (d + c))

theorem chain_imp_chain_tail {d : Nat} {l : List Nat}
    (h : List.Chain (fun a b => a ≤ b) d l) :
    List.Chain' (fun a b => a ≤ b) l := by
  cases l with
  | nil => trivial
  | cons x t => exact (List.chain_cons.mp h).2

theorem is_newer_eq_true_iff (l r : Nat × Nat × Nat) :
    is_newer l r = true ↔ TripleLt l r := by
  simp only [is_newer, TripleLt, Bool.or_eq_true, Bool.and_eq_true, decide_eq_true_eq]
  tauto

theorem is_newer_zero_right (l : Nat × Nat × Nat) : is_newer l (0, 0, 0) = false := by
  obtain ⟨a, b, c⟩ := l
  simp [is_newer, Nat.not_lt_zero]

/-- C2: for every pair of version strings whose trailing suffix matches
`vMAJOR.MINOR.PATCH`, the check reports a new version available (publishes
the check-done event and sets NEW_VERSION) iff the remote integer triple is
strictly lexicographically greater than the local one, comparing numerically
major first, then minor, then patch; an exact tie means not newer. -/
theorem C2_version_check (s t : String) (a b c x y z : Nat)
    (hs : parse_version s = some (a, b, c))
    (ht : parse_version t = some (x, y, z)) :
    (CheckEvent.check_done_new_version
        ∈ (app_update_check_start_task s (.ok (some t))).events
      ↔ TripleLt (a, b, c) (x, y, z)) ∧
    ((app_update_check_start_task s (.ok (some t))).statusWrites = [Status.NEW_VERSION]
      ↔ TripleLt (a, b, c) (x, y, z)) := by
  by_cases hlt : TripleLt (a, b, c) (x, y, z)
  · have hb : is_newer (a, b, c) (x, y, z) = true := (is_newer_eq_true_iff _ _).mpr hlt
    simp [app_update_check_start_task, hs, ht, hb, hlt]
  · have hb : is_newer (a, b, c) (x, y, z) = false := by
      cases hval : is_newer (a, b, c) (x, y, z)
      · rfl
      · exact absurd ((is_newer_eq_true_iff _ _).mp hval) hlt
    simp [app_update_check_start_task, hs, ht, hb, hlt]

theorem C2_witness :
    (CheckEvent.check_done_new_version
        ∈ (app_update_check_start_task "v1.2.9" (.ok (some "v1.3.0"))).events
      ↔ TripleLt (1, 2, 9) (1, 3, 0)) ∧
    ((app_update_check_start_task "v1.2.9" (.ok (some "v1.3.0"))).statusWrites
        = [Status.NEW_VERSION]
      ↔ TripleLt (1, 2, 9) (1, 3, 0)) :=
  C2_version_check "v1.2.9" "v1.3.0" 1 2 9 1 3 0 (by decide) (by decide)

/-- C10: when the release JSON lacks a `tag_name` field the code compares
against the default `"v0.0.0"`, so for every local version whose triple is
parseable the check finds no update: it publishes no events and performs no
status write. -/
theorem C10_missing_tag_no_update (s : String) (a b c : Nat)
    (h : parse_version s = some (a, b, c)) :
    (app_update_check_start_task s (.ok none)).events = [] ∧
    (app_update_check_start_task s (.ok none)).statusWrites = [] := by
  have hv : parse_version "v0.0.0" = some (0, 0, 0) := by decide
  have h0 : is_newer (a, b, c) (0, 0, 0) = false := is_newer_zero_right _
  simp only [app_update_check_start_task, Option.getD, h, hv]
  rw [h0]
  simp

theorem C10_witness :
    (app_update_check_start_task "v1.0.0" (.ok none)).events = [] ∧
    (app_update_check_start_task "v1.0.0" (.ok none)).statusWrites = [] :=
  C10_missing_tag_no_update "v1.0.0" 1 0 0 (by decide)

theorem select_eq_of_find (plat arch : String) (assets : List Asset) (a0 : Asset)
    (h : assets.find? (fun a1 => asset_matches plat arch a1.name) = some a0) :
    select_browser_download_url plat arch assets = a0.browser_download_url := by
  induction assets with
  | nil => cases h
  | cons hd tl ih =>
    by_cases hm : asset_matches plat arch hd.name = true
    · simp only [List.find?_cons, hm, Option.some.injEq] at h
      subst h
      simp [select_browser_download_url, hm]
    · have hm2 : asset_matches plat arch hd.name = false := by
        cases hval : asset_matches plat arch hd.name
        · rfl
        · exact absurd hval hm
      simp only [List.find?_cons, hm2] at h
      simp only [select_browser_download_url, hm2, Bool.false_eq_true, if_false]
      exact ih h

theorem select_eq_empty_of_find_none (plat arch : String) (assets : List Asset)
    (h : assets.find? (fun a1 => asset_matches plat arch a1.name) = none) :
    select_browser_download_url plat arch assets = "" := by
  induction assets with
  | nil => rfl
  | cons hd tl ih =>
    by_cases hm : asset_matches plat arch hd.name = true
    · simp only [List.find?_cons, hm] at h
      cases h
    · have hm2 : asset_matches plat arch hd.name = false := by
        cases hval : asset_matches plat arch hd.name
        · rfl
        · exact absurd hval hm
      simp only [List.find?_cons, hm2] at h
      simp only [select_browser_download_url, hm2, Bool.false_eq_true, if_false]
      exact ih h

/-- C7: asset selection is a single linear scan in list order: when some
asset name matches the platform test (exact suffix `_macOS_<arch>.dmg` on
macOS, suffix `.zip` on Windows, per `asset_matches`), the first such asset
is the one selected; when no asset matches, the download task fails with the
asset-not-found message and the status writes end with NONE (IDLE). -/
theorem C7_asset_selection (darwin : Bool) (machine : String)
    (assets : List Asset) (stream : StreamEnv) :
    (∀ a0, assets.find? (fun a1 =>
          asset_matches (get_platform_info darwin machine).1
            (get_platform_info darwin machine).2 a1.name) = some a0 →
      select_browser_download_url (get_platform_info darwin machine).1
          (get_platform_info darwin machine).2 assets = a0.browser_download_url) ∧
    (assets.find? (fun a1 =>
          asset_matches (get_platform_info darwin machine).1
            (get_platform_info darwin machine).2 a1.name) = none →
      (app_update_download_start_task darwin machine (.ok assets stream)).events
          = [DlEvent.toast true (app_new_version_failure ++
              ("No suitable asset found for " ++ (get_platform_info darwin machine).1
                ++ "/" ++ (get_platform_info darwin machine).2)),
             DlEvent.download_error] ∧
      (app_update_download_start_task darwin machine (.ok assets stream)).statusWrites
          = [Status.UPDATING, Status.NONE]) := by
  constructor
  · intro a0 h
    exact select_eq_of_find _ _ _ _ h
  · intro h
    have hsel := select_eq_empty_of_find_none _ _ _ h
    simp [app_update_download_start_task, hsel, download_error_result]

theorem C7_witness :
    (select_browser_download_url (get_platform_info true "arm64").1
        (get_platform_info true "arm64").2
        [⟨"LinguaGacha_Windows_x86_64.zip", "URL0"⟩,
         ⟨"LinguaGacha_macOS_arm64.dmg", "URL1"⟩,
         ⟨"Another_macOS_arm64.dmg", "URL2"⟩]
      = (Asset.mk "LinguaGacha_macOS_arm64.dmg" "URL1").browser_download_url) ∧
    ((app_update_download_start_task true "arm64"
        (.ok [⟨"LinguaGacha_Windows_x86_64.zip", "URL0"⟩] (.openFail "x"))).events
      = [DlEvent.toast true (app_new_version_failure ++
          ("No suitable asset found for " ++ (get_platform_info true "arm64").1
            ++ "/" ++ (get_platform_info true "arm64").2)),
         DlEvent.download_error] ∧
     (app_update_download_start_task true "arm64"
        (.ok [⟨"LinguaGacha_Windows_x86_64.zip", "URL0"⟩] (.openFail "x"))).statusWrites
      = [Status.UPDATING, Status.NONE]) :=
  ⟨(C7_asset_selection true "arm64"
      [⟨"LinguaGacha_Windows_x86_64.zip", "URL0"⟩,
       ⟨"LinguaGacha_macOS_arm64.dmg", "URL1"⟩,
       ⟨"Another_macOS_arm64.dmg", "URL2"⟩] (.openFail "x")).1
      (Asset.mk "LinguaGacha_macOS_arm64.dmg" "URL1") (by decide),
   (C7_asset_selection true "arm64"
      [⟨"LinguaGacha_Windows_x86_64.zip", "URL0"⟩] (.openFail "x")).2 (by decide)⟩

/-- C8: a download whose response declares a missing or zero content length
(the code reads `headers.get("Content-Length", 0)`, so missing means 0)
terminates with the single failure terminal event, emits no progress event
and writes no bytes to the staging file; the failure occurs before any chunk
is processed, whatever the stream would have delivered. -/
theorem C8_zero_content_length (darwin : Bool) (machine : String)
    (assets : List Asset) (chunks : List Nat) (midError : Option String)
    (hsel : select_browser_download_url (get_platform_info darwin machine).1
        (get_platform_info darwin machine).2 assets ≠ "") :
    (app_update_download_start_task darwin machine
        (.ok assets (.body 0 chunks midError))).events
      = [DlEvent.toast true (app_new_version_failure ++ "Content-Length is 0 ..."),
         DlEvent.download_error] ∧
    (app_update_download_start_task darwin machine
        (.ok assets (.body 0 chunks midError))).written = [] ∧
    (app_update_download_start_task darwin machine
        (.ok assets (.body 0 chunks midError))).statusWrites
      = [Status.UPDATING, Status.NONE] := by
  simp [app_update_download_start_task, handle_stream, hsel, download_error_result]

theorem C8_witness :
    (app_update_download_start_task false "x86_64"
        (.ok [⟨"LinguaGacha_v1.zip", "URL0"⟩] (.body 0 [5, 7] none))).events
      = [DlEvent.toast true (app_new_version_failure ++ "Content-Length is 0 ..."),
         DlEvent.download_error] ∧
    (app_update_download_start_task false "x86_64"
        (.ok [⟨"LinguaGacha_v1.zip", "URL0"⟩] (.body 0 [5, 7] none))).written = [] ∧
    (app_update_download_start_task false "x86_64"
        (.ok [⟨"LinguaGacha_v1.zip", "URL0"⟩] (.body 0 [5, 7] none))).statusWrites
      = [Status.UPDATING, Status.NONE] :=
  C8_zero_content_length false "x86_64" [⟨"LinguaGacha_v1.zip", "URL0"⟩] [5, 7] none
    (by decide)

theorem error_result_shape (m : String) :
    (download_error_result m).events.filter
        (fun e => is_progress_event e || is_terminal e) = [DlEvent.download_error] ∧
    (download_error_result m).statusWrites.getLast? = some Status.NONE ∧
    DlEvent.toast true (app_new_version_failure ++ m) ∈ (download_error_result m).events := by
  refine ⟨?_, rfl, ?_⟩ <;> simp [download_error_result, is_progress_event, is_terminal]

/-- One-step unfolding of the download task on a successful metadata fetch,
exposing the asset-selection test and the stream handling. -/
theorem task_ok_eq (darwin : Bool) (machine : String) (assets : List Asset)
    (stream : StreamEnv) :
    app_update_download_start_task darwin machine (.ok assets stream)
      = (if select_browser_download_url (get_platform_info darwin machine).1
              (get_platform_info darwin machine).2 assets = "" then
           download_error_result ("No suitable asset found for "
             ++ (get_platform_info darwin machine).1 ++ "/"
             ++ (get_platform_info darwin machine).2)
         else handle_stream stream) := rfl

theorem handle_stream_body_some (total_size : Nat) (chunks : List Nat) (m : String)
    (h0 : ¬ total_size = 0) :
    handle_stream (.body total_size chunks (some m))
      = { events := (iter_bytes_loop total_size 0 chunks).1
            ++ [DlEvent.toast true (app_new_version_failure ++ m),
                DlEvent.download_error],
          statusWrites := Status.UPDATING
            :: (iter_bytes_loop total_size 0 chunks).2.1 ++ [Status.NONE],
          written := (iter_bytes_loop total_size 0 chunks).2.2 } := by
  simp only [handle_stream]
  rw [if_neg h0]

theorem handle_stream_body_none (total_size : Nat) (chunks : List Nat)
    (h0 : ¬ total_size = 0) :
    handle_stream (.body total_size chunks none)
      = { events := (iter_bytes_loop total_size 0 chunks).1,
          statusWrites := Status.UPDATING :: (iter_bytes_loop total_size 0 chunks).2.1,
          written := (iter_bytes_loop total_size 0 chunks).2.2 } := by
  simp only [handle_stream]
  rw [if_neg h0]

/-- C4: under the framing guarantees of a Content-Length HTTP transfer
(`goodEnv`), every download invocation publishes zero or more progress
events and then exactly one terminal event (in the order-preserving
filtering to progress and terminal events, a single terminal event comes
last), and on the failure terminal the last status write is NONE (IDLE) and
an error toast carrying `app_new_version_failure + str(e)` was published. -/
theorem C4_exactly_one_terminal (darwin : Bool) (machine : String) (env : DownloadEnv)
    (h : goodEnv env) :
    (∃ ps t, ((app_update_download_start_task darwin machine env).events.filter
          (fun e => is_progress_event e || is_terminal e)) = ps ++ [t] ∧
      (∀ e ∈ ps, is_progress_event e = true) ∧ is_terminal t = true) ∧
    (DlEvent.download_error ∈ (app_update_download_start_task darwin machine env).events →
      (app_update_download_start_task darwin machine env).statusWrites.getLast?
          = some Status.NONE ∧
      ∃ m, DlEvent.toast true (app_new_version_failure ++ m)
          ∈ (app_update_download_start_task darwin machine env).events) := by
  cases env with
  | httpFail m =>
    obtain ⟨hf, hl, hmem⟩ := error_result_shape m
    exact ⟨⟨[], DlEvent.download_error, hf,
             ⟨fun e he => absurd he (List.not_mem_nil e), rfl⟩⟩,
           fun _ => ⟨hl, m, hmem⟩⟩
  | ok assets stream =>
    rw [task_ok_eq]
    by_cases hurl : select_browser_download_url (get_platform_info darwin machine).1
        (get_platform_info darwin machine).2 assets = ""
    · rw [if_pos hurl]
      obtain ⟨hf, hl, hmem⟩ := error_result_shape _
      exact ⟨⟨[], DlEvent.download_error, hf,
               ⟨fun e he => absurd he (List.not_mem_nil e), rfl⟩⟩,
             fun _ => ⟨hl, _, hmem⟩⟩
    · rw [if_neg hurl]
      cases stream with
      | openFail m =>
        obtain ⟨hf, hl, hmem⟩ := error_result_shape m
        exact ⟨⟨[], DlEvent.download_error, hf,
                 ⟨fun e he => absurd he (List.not_mem_nil e), rfl⟩⟩,
               fun _ => ⟨hl, m, hmem⟩⟩
      | body total_size chunks midError =>
        by_cases ht0 : total_size = 0
        · obtain ⟨hf, hl, hmem⟩ := error_result_shape "Content-Length is 0 ..."
          have hse : handle_stream (.body total_size chunks midError)
              = download_error_result "Content-Length is 0 ..." := by
            simp only [handle_stream]
            rw [if_pos ht0]
          rw [hse]
          exact ⟨⟨[], DlEvent.download_error, hf,
                   ⟨fun e he => absurd he (List.not_mem_nil e), rfl⟩⟩,
                 fun _ => ⟨hl, _, hmem⟩⟩
        · cases midError with
          | some m =>
            have hlt : chunks.sum < total_size := by
              rcases h with hz | hlt
              · exact absurd hz ht0
              · exact hlt
            obtain ⟨hall, hsts⟩ := iter_bytes_loop_under total_size 0 chunks
              (by simpa using hlt)
            rw [handle_stream_body_some total_size chunks m ht0]
            constructor
            · refine ⟨(iter_bytes_loop total_size 0 chunks).1, DlEvent.download_error,
                ?_, hall, rfl⟩
              rw [List.filter_append]
              have h1 : (iter_bytes_loop total_size 0 chunks).1.filter
                  (fun e => is_progress_event e || is_terminal e)
                  = (iter_bytes_loop total_size 0 chunks).1 := by
                apply List.filter_eq_self.mpr
                intro e he
                rw [hall e he]
                rfl
              rw [h1]
              simp [is_progress_event, is_terminal]
            · intro _
              constructor
              · rw [hsts]
                rfl
              · exact ⟨m, List.mem_append_right _ (List.mem_cons_self _ _)⟩
          | none =>
            have hgd : 0 < total_size ∧ chunks.sum = total_size ∧
                ∀ i, i < chunks.length → (chunks.take i).sum < total_size := by
              rcases h with hz | hgd
              · exact absurd hz ht0
              · exact hgd
            obtain ⟨hp0, hsum, hpre⟩ := hgd
            have hne : chunks ≠ [] := by
              intro hnil
              rw [hnil] at hsum
              simp at hsum
              omega
            obtain ⟨ps, he, hp, hs⟩ := iter_bytes_loop_exact total_size 0 chunks hne
              (by simpa using hsum) (by simpa using hpre)
            rw [handle_stream_body_none total_size chunks ht0]
            constructor
            · refine ⟨ps, DlEvent.download_done, ?_, hp, rfl⟩
              rw [he, List.filter_append]
              have h1 : ps.filter (fun e => is_progress_event e || is_terminal e) = ps := by
                apply List.filter_eq_self.mpr
                intro e hmem
                rw [hp e hmem]
                rfl
              rw [h1]
              simp [is_progress_event, is_terminal]
            · intro hmem
              rw [he] at hmem
              rcases List.mem_append.mp hmem with hmem | hmem
              · have := hp _ hmem
                simp [is_progress_event] at this
              · simp at hmem

theorem C4_witness :
    (∃ ps t, ((app_update_download_start_task false "x86_64"
          (.httpFail "boom")).events.filter
          (fun e => is_progress_event e || is_terminal e)) = ps ++ [t] ∧
      (∀ e ∈ ps, is_progress_event e = true) ∧ is_terminal t = true) ∧
    (DlEvent.download_error
        ∈ (app_update_download_start_task false "x86_64" (.httpFail "boom")).events →
      (app_update_download_start_task false "x86_64"
          (.httpFail "boom")).statusWrites.getLast? = some Status.NONE ∧
      ∃ m, DlEvent.toast true (app_new_version_failure ++ m)
          ∈ (app_update_download_start_task false "x86_64" (.httpFail "boom")).events) :=
  C4_exactly_one_terminal false "x86_64" (.httpFail "boom") True.intro

/-- C5: within a single download that got past the content-length check
(`0 < total_size`) and whose stream respects Content-Length framing, the
progress events are monotonically non-decreasing in `downloaded_size`, every
progress event satisfies `downloaded_size < total_size`, and the accumulated
downloaded size (the sum of the chunks written, which is what
`downloaded_size` holds when the terminal event fires) equals `total_size`
exactly when the terminal outcome is success. -/
theorem C5_progress_invariants (darwin : Bool) (machine : String) (assets : List Asset)
    (total_size : Nat) (chunks : List Nat) (midError : Option String)
    (hgood : goodStream (.body total_size chunks midError))
    (hpos : 0 < total_size) :
    List.Chain' (fun a b => a ≤ b)
      (progress_values (app_update_download_start_task darwin machine
        (.ok assets (.body total_size chunks midError))).events) ∧
    (∀ ts dd, DlEvent.progress ts dd
        ∈ (app_update_download_start_task darwin machine
            (.ok assets (.body total_size chunks midError))).events →
      ts = total_size ∧ dd < total_size) ∧
    (DlEvent.download_done
        ∈ (app_update_download_start_task darwin machine
            (.ok assets (.body total_size chunks midError))).events ↔
      (app_update_download_start_task darwin machine
          (.ok assets (.body total_size chunks midError))).written.sum = total_size) := by
  have ht0 : ¬ total_size = 0 := by omega
  rw [task_ok_eq]
  by_cases hurl : select_browser_download_url (get_platform_info darwin machine).1
      (get_platform_info darwin machine).2 assets = ""
  · rw [if_pos hurl]
    refine ⟨by simp [download_error_result, progress_values], ?_, ?_⟩
    · intro ts dd hmem
      simp [download_error_result] at hmem
    · constructor
      · intro hmem
        simp [download_error_result] at hmem
      · intro hsum
        simp [download_error_result] at hsum
        omega
  · rw [if_neg hurl]
    cases midError with
    | some m =>
      have hlt : chunks.sum < total_size := by
        rcases hgood with hz | hlt
        · exact absurd hz ht0
        · exact hlt
      obtain ⟨hall, hsts⟩ := iter_bytes_loop_under total_size 0 chunks (by simpa using hlt)
      rw [handle_stream_body_some total_size chunks m ht0]
      refine ⟨?_, ?_, ?_⟩
      · have hpv : progress_values ((iter_bytes_loop total_size 0 chunks).1
            ++ [DlEvent.toast true (app_new_version_failure ++ m), DlEvent.download_error])
            = progress_values (iter_bytes_loop total_size 0 chunks).1 := by
          simp [progress_values, List.filterMap_append]
        simp only []
        rw [hpv]
        exact chain_imp_chain_tail (iter_bytes_loop_chain total_size 0 chunks)
      · intro ts dd hmem
        simp only [] at hmem
        rcases List.mem_append.mp hmem with hmem | hmem
        · exact iter_bytes_loop_progress_mem total_size 0 chunks ts dd hmem
        · simp at hmem
      · constructor
        · intro hmem
          simp only [] at hmem
          rcases List.mem_append.mp hmem with hmem | hmem
          · have := hall _ hmem
            simp [is_progress_event] at this
          · simp at hmem
        · intro hsum
          simp only [iter_bytes_loop_written] at hsum
          omega
    | none =>
      have hgd : 0 < total_size ∧ chunks.sum = total_size ∧
          ∀ i, i < chunks.length → (chunks.take i).sum < total_size := by
        rcases hgood with hz | hgd
        · exact absurd hz ht0
        · exact hgd
      obtain ⟨hp0, hsum, hpre⟩ := hgd
      have hne : chunks ≠ [] := by
        intro hnil
        rw [hnil] at hsum
        simp at hsum
        omega
      obtain ⟨ps, he, hp, hs⟩ := iter_bytes_loop_exact total_size 0 chunks hne
        (by simpa using hsum) (by simpa using hpre)
      rw [handle_stream_body_none total_size chunks ht0]
      refine ⟨?_, ?_, ?_⟩
      · exact chain_imp_chain_tail (iter_bytes_loop_chain total_size 0 chunks)
      · intro ts dd hmem
        exact iter_bytes_loop_progress_mem total_size 0 chunks ts dd hmem
      · constructor
        · intro _
          simp only [iter_bytes_loop_written]
          exact hsum
        · intro _
          rw [he]
          refine List.mem_append_right _ ?_
          exact List.mem_cons_of_mem _ (List.mem_cons_self _ _)

theorem C5_witness_good : goodStream (.body 10 [6, 4] none) := by
  show 10 = 0 ∨ (0 < 10 ∧ ([6, 4] : List Nat).sum = 10 ∧
      ∀ i, i < ([6, 4] : List Nat).length → (([6, 4] : List Nat).take i).sum < 10)
  right
  refine ⟨by decide, by decide, ?_⟩
  decide

theorem C5_witness :
    List.Chain' (fun a b => a ≤ b)
      (progress_values (app_update_download_start_task false "x86_64"
        (.ok [⟨"LinguaGacha_v2.zip", "URL0"⟩] (.body 10 [6, 4] none))).events) ∧
    (∀ ts dd, DlEvent.progress ts dd
        ∈ (app_update_download_start_task false "x86_64"
            (.ok [⟨"LinguaGacha_v2.zip", "URL0"⟩] (.body 10 [6, 4] none))).events →
      ts = 10 ∧ dd < 10) ∧
    (DlEvent.download_done
        ∈ (app_update_download_start_task false "x86_64"
            (.ok [⟨"LinguaGacha_v2.zip", "URL0"⟩] (.body 10 [6, 4] none))).events ↔
      (app_update_download_start_task false "x86_64"
          (.ok [⟨"LinguaGacha_v2.zip", "URL0"⟩] (.body 10 [6, 4] none))).written.sum = 10) :=
  C5_progress_invariants false "x86_64" [⟨"LinguaGacha_v2.zip", "URL0"⟩] 10 [6, 4] none
    C5_witness_good (by decide)

/-- C1: for the in-place (Windows) install strategy, when the critical
extraction step raises, the rollback runs — the canonical executable and
version-marker files are best-effort deleted and the `.bak` siblings are
best-effort renamed back — so, provided the extraction step itself did not
touch the `.bak` paths, the pre-install executable and version-marker file
are restored exactly as they were before the install attempt (whether they
existed or not). -/
theorem C1_rollback_restores_originals (machine : String) (fs0 : FS) (eff : FS → FS)
    (hb1 : ∀ fs, (eff fs).app_exe_bak = fs.app_exe_bak)
    (hb2 : ∀ fs, (eff fs).version_txt_bak = fs.version_txt_bak) :
    (app_update_extract_task false machine fs0 (.failure eff)).fs.app_exe = fs0.app_exe ∧
    (app_update_extract_task false machine fs0 (.failure eff)).fs.version_txt
      = fs0.version_txt := by
  obtain ⟨ae, vt, aeb, vtb, tmp⟩ := fs0
  cases ae <;> cases vt <;>
    simp [app_update_extract_task, get_platform_info, os_rename, hb1, hb2]

def fsC1 : FS :=
  { app_exe := some "ORIGINAL_EXE"
    version_txt := some "v1.0.0"
    app_exe_bak := some "STALE_BAK"
    version_txt_bak := none
    update_temp := some "ZIPBYTES" }

def effC1 : FS → FS :=
  fun fs => { fs with app_exe := some "PARTIAL_NEW_EXE", version_txt := none }

theorem C1_witness :
    (app_update_extract_task false "x86_64" fsC1 (.failure effC1)).fs.app_exe
        = fsC1.app_exe ∧
    (app_update_extract_task false "x86_64" fsC1 (.failure effC1)).fs.version_txt
        = fsC1.version_txt :=
  C1_rollback_restores_originals "x86_64" fsC1 effC1 (fun _ => rfl) (fun _ => rfl)

/-- C3 counterexample: a concrete Windows install attempt whose extraction
step fails: the task ends by killing the process and its only write to
ExtractingFlag is the initial `True` — the flag is never set back to false
on exit, contradicting "set false on exit on all paths". -/
theorem C3_counterexample_flag_not_cleared :
    (app_update_extract_task false "x86_64"
        ⟨some "A", some "V", none, none, some "Z"⟩ (.failure id)).killed = true ∧
    (app_update_extract_task false "x86_64"
        ⟨some "A", some "V", none, none, some "Z"⟩ (.failure id)).flagWrites = [true] ∧
    false ∉ (app_update_extract_task false "x86_64"
        ⟨some "A", some "V", none, none, some "Z"⟩ (.failure id)).flagWrites := by
  refine ⟨rfl, rfl, ?_⟩
  intro hmem
  rw [show (app_update_extract_task false "x86_64"
      ⟨some "A", some "V", none, none, some "Z"⟩ (.failure id)).flagWrites
      = [true] from rfl] at hmem
  simp at hmem

/-- C3 amended: ExtractingFlag is written `True` at the start of the Windows
extraction path only, which then ends by terminating the process without
ever clearing it; the macOS package-handoff path never sets the flag true
and only writes `False` on exit; and while the flag is true a second
extract command is a silent no-op (the handler spawns no task). -/
theorem C3_amended_flag_discipline :
    (∀ machine fs0 outcome,
      (app_update_extract_task false machine fs0 outcome).flagWrites = [true] ∧
      (app_update_extract_task false machine fs0 outcome).killed = true) ∧
    (∀ machine fs0 outcome,
      (app_update_extract_task true machine fs0 outcome).flagWrites = [false] ∧
      (app_update_extract_task true machine fs0 outcome).killed = false) ∧
    app_update_extract_spawns true = false := by
  refine ⟨?_, ?_, rfl⟩
  · intro machine fs0 outcome
    cases outcome <;> exact ⟨rfl, rfl⟩
  · intro machine fs0 outcome
    cases outcome <;> exact ⟨rfl, rfl⟩

/-- C9 counterexample: a macOS (package-handoff) install attempt leaves the
staged artifact at `TEMP_PATH` in place, so it is not deleted by the end of
every install attempt on either platform strategy. -/
theorem C9_counterexample_macos_temp_kept :
    (app_update_extract_task true "arm64"
        ⟨none, none, none, none, some "STAGED"⟩ (.success id)).fs.update_temp
      = some "STAGED" ∧
    some "STAGED" ≠ (none : Option String) := by
  refine ⟨rfl, ?_⟩
  intro hcontra
  cases hcontra

/-- C9 amended: the Windows in-place install attempt deletes the staged
artifact at `TEMP_PATH` at the end of the attempt whether the extraction
step succeeds or fails, while the macOS package-handoff attempt leaves the
staging path untouched. -/
theorem C9_amended_temp_deleted_windows_only (machine : String) (fs0 : FS)
    (outcome : ExtractOutcome) :
    (app_update_extract_task false machine fs0 outcome).fs.update_temp = none ∧
    (app_update_extract_task true machine fs0 outcome).fs.update_temp
      = fs0.update_temp := by
  cases outcome <;> exact ⟨rfl, rfl⟩

/-- C6 counterexample: a download command handled while the status is still
the initial NONE (IDLE) — no successful check ever ran — performs the
unconditional `set_status(UPDATING)`: the state immediately before the
status becomes UPDATING (DOWNLOADING) is NONE (IDLE), not NEW_VERSION
(UPDATE_AVAILABLE). -/
theorem C6_counterexample_downloading_from_idle :
    (app_update_download_start_task false "x86_64"
        (.httpFail "connection timeout")).statusWrites
      = [Status.UPDATING, Status.NONE] ∧
    status_steps initial_status [Status.UPDATING, Status.NONE]
      = [(Status.NONE, Status.UPDATING), (Status.UPDATING, Status.NONE)] ∧
    (Status.NONE, Status.UPDATING)
      ∈ status_steps initial_status [Status.UPDATING, Status.NONE] ∧
    Status.NONE ≠ Status.NEW_VERSION := by
  refine ⟨rfl, rfl, ?_, by intro hcontra; cases hcontra⟩
  exact List.mem_cons_self _ _

/-- C6 amended: the only `set_status(UPDATING)` call site is the
unconditional one at the top of every download task — the check task never
writes UPDATING, and every download task writes UPDATING exactly once, as
its first status write — but the code never inspects the previous state, so
the state immediately before DOWNLOADING can be any state, not only
UPDATE_AVAILABLE. -/
theorem C6_amended_only_download_start_writes_downloading :
    (∀ version env, Status.UPDATING ∉ (app_update_check_start_task version env).statusWrites) ∧
    (∀ darwin machine env, ∃ tl,
      (app_update_download_start_task darwin machine env).statusWrites
          = Status.UPDATING :: tl ∧
      Status.UPDATING ∉ tl) := by
  constructor
  · intro version env
    cases env with
    | httpFail m => simp [app_update_check_start_task]
    | ok tag_name =>
      simp only [app_update_check_start_task]
      cases parse_version version with
      | none => simp
      | some l =>
        cases parse_version (tag_name.getD "v0.0.0") with
        | none => simp
        | some r =>
          by_cases hn : is_newer l r = true
          · simp [hn]
          · simp [hn]
  · intro darwin machine env
    cases env with
    | httpFail m => exact ⟨[Status.NONE], rfl, by simp⟩
    | ok assets stream =>
      rw [task_ok_eq]
      by_cases hurl : select_browser_download_url (get_platform_info darwin machine).1
          (get_platform_info darwin machine).2 assets = ""
      · rw [if_pos hurl]
        exact ⟨[Status.NONE], rfl, by simp⟩
      · rw [if_neg hurl]
        cases stream with
        | openFail m => exact ⟨[Status.NONE], rfl, by simp⟩
        | body total_size chunks midError =>
          by_cases ht0 : total_size = 0
          · have hse : handle_stream (.body total_size chunks midError)
                = download_error_result "Content-Length is 0 ..." := by
              simp only [handle_stream]
              rw [if_pos ht0]
            rw [hse]
            exact ⟨[Status.NONE], rfl, by simp⟩
          · have hall := iter_bytes_loop_status_all total_size 0 chunks
            cases midError with
            | some m =>
              rw [handle_stream_body_some total_size chunks m ht0]
              refine ⟨(iter_bytes_loop total_size 0 chunks).2.1 ++ [Status.NONE], rfl, ?_⟩
              intro hmem
              rcases List.mem_append.mp hmem with hmem | hmem
              · cases hall _ hmem
              · simp at hmem
            | none =>
              rw [handle_stream_body_none total_size chunks ht0]
              refine ⟨(iter_bytes_loop total_size 0 chunks).2.1, rfl, ?_⟩
              intro hmem
              cases hall _ hmem

end LinguaGacha
